import Mathlib

/-!
Verification of the virtual-memory subsystem of the Nachos-RiscV teaching
kernel: a shallow embedding of the address-translation pipeline
(`MMU::Translate` in `machine/mmu.cc`), the physical page manager
(`vm/physMem.cc`), and the swap manager (`swapManager.cc`), together with
theorems settling the specification's claims about them.

Machine integers (`uint32_t`, `uint64_t`, `int`) are modelled as `Nat`
(or `Int` where the source performs signed comparisons); no arithmetic in
the modelled code paths can overflow 32 bits on the inputs the kernel
feeds it, and the checks modelled here are order and value comparisons.
Statistics counters (`incrMemoryAccess`, `incrPageFault`) are side effects
on an external statistics object and are not part of any claim, so they
are not modelled.
-/

namespace Nachos

/-- Exception codes from `machine.h`, as used by `MMU::Translate`. -/
inductive ExceptionType where
  | NO_EXCEPTION
  | BUSERROR_EXCEPTION
  | ADDRESSERROR_EXCEPTION
  | READONLY_EXCEPTION
  | PAGEFAULT_EXCEPTION
deriving DecidableEq, Repr

/-- One entry of a linear page table (spec section 3, consumed by
`MMU::Translate` through the `TranslationTable` accessors listed in spec
section 6).  `physicalPage` is a C `int` in the source — the MMU checks
`getPhysicalPage(vpn) < 0` — so it is modelled as `Int`.  `addrDisk` is
the swap sector of the page, `-1` (`INVALID_SECTOR`) when never swapped. -/
structure PageTableEntry where
  valid : Bool
  readAllowed : Bool
  writeAllowed : Bool
  bitU : Bool
  bitM : Bool
  physicalPage : Int
  addrDisk : Int
deriving DecidableEq, Repr

instance : Inhabited PageTableEntry :=
  ⟨⟨false, false, false, false, false, 0, -1⟩⟩

/-- A linear page table: entries indexed by virtual page number. -/
def TranslationTable := List PageTableEntry

instance : DecidableEq TranslationTable := by
  unfold TranslationTable
  infer_instance

instance : Repr TranslationTable := by
  unfold TranslationTable
  infer_instance

instance : Inhabited TranslationTable := ⟨([] : List PageTableEntry)⟩

namespace TranslationTable

/-- `TranslationTable::getMaxNumPages`. -/
def getMaxNumPages (tt : TranslationTable) : Nat := List.length tt

/-- Fetch the entry for a virtual page number (the C++ accessors index the
underlying array; the MMU only calls them after checking the bound). -/
def getEntry (tt : TranslationTable) (vpn : Nat) : PageTableEntry :=
  List.getD tt vpn default

/-- `TranslationTable::getBitValid`. -/
def getBitValid (tt : TranslationTable) (vpn : Nat) : Bool :=
  (getEntry tt vpn).valid

/-- `TranslationTable::getBitReadAllowed`. -/
def getBitReadAllowed (tt : TranslationTable) (vpn : Nat) : Bool :=
  (getEntry tt vpn).readAllowed

/-- `TranslationTable::getBitWriteAllowed`. -/
def getBitWriteAllowed (tt : TranslationTable) (vpn : Nat) : Bool :=
  (getEntry tt vpn).writeAllowed

/-- `TranslationTable::getBitU`. -/
def getBitU (tt : TranslationTable) (vpn : Nat) : Bool :=
  (getEntry tt vpn).bitU

/-- `TranslationTable::getBitM`. -/
def getBitM (tt : TranslationTable) (vpn : Nat) : Bool :=
  (getEntry tt vpn).bitM

/-- `TranslationTable::getPhysicalPage`. -/
def getPhysicalPage (tt : TranslationTable) (vpn : Nat) : Int :=
  (getEntry tt vpn).physicalPage

/-- `TranslationTable::setBitU`. -/
def setBitU (tt : TranslationTable) (vpn : Nat) : TranslationTable :=
  List.set tt vpn { getEntry tt vpn with bitU := true }

/-- `TranslationTable::setBitM`. -/
def setBitM (tt : TranslationTable) (vpn : Nat) : TranslationTable :=
  List.set tt vpn { getEntry tt vpn with bitM := true }

/-- `TranslationTable::clearBitValid`. -/
def clearBitValid (tt : TranslationTable) (vpn : Nat) : TranslationTable :=
  List.set tt vpn { getEntry tt vpn with valid := false }

end TranslationTable

open TranslationTable

/-- The configuration values `g_cfg->PageSize` and `g_cfg->NumPhysPages`
consulted by the MMU. -/
structure Cfg where
  PageSize : Nat
  NumPhysPages : Nat
deriving DecidableEq, Repr

/-- The alignment guard of `MMU::Translate` (mmu.cc lines 211-215):
`((size == 4) && (virtAddr & 0x3)) || ((size == 2) && (virtAddr & 0x1))`. -/
def alignmentFault (size virtAddr : Nat) : Bool :=
  (size == 4 && virtAddr % 4 != 0) || (size == 2 && virtAddr % 2 != 0)

/-- Result of one call to `MMU::Translate`.  `halt` models
`exit(ERROR)` reached when the page-fault service returns with the entry
still invalid; `fault e tt` models returning exception code `e` with the
translation table in state `tt`; `ok physAddr tt` models returning
`NO_EXCEPTION` after storing `physAddr` through the out-parameter. -/
inductive TranslateResult where
  | halt
  | fault (e : ExceptionType) (tt : TranslationTable)
  | ok (physAddr : Nat) (tt : TranslationTable)
deriving DecidableEq, Repr

/-- The tail of `MMU::Translate` once the entry is known valid
(mmu.cc lines 261-278): frame-bounds sanity check, then set the M bit on a
write, set the U bit, and produce `physicalPage * PageSize + offset`. -/
def translateValid (cfg : Cfg) (tt : TranslationTable) (vpn offset : Nat)
    (writing : Bool) : TranslateResult :=
  if getPhysicalPage tt vpn < 0 ∨ (cfg.NumPhysPages : Int) ≤ getPhysicalPage tt vpn then
    .fault .BUSERROR_EXCEPTION tt
  else
    let tt2 := if writing then setBitM tt vpn else tt
    let tt3 := setBitU tt2 vpn
    .ok ((getPhysicalPage tt vpn).toNat * cfg.PageSize + offset) tt3

/-- `MMU::Translate` (mmu.cc lines 205-279).  `pfh` is the effect of
raising `PAGEFAULT_EXCEPTION`: the exception handler (`exception.cc`, case
`PAGEFAULT_EXCEPTION`) runs the page fault manager on the faulting virtual
page number and the translation table it leaves behind is `pfh vpn tt`.
The checks appear in source order: alignment, page-number range, mapped
(`readAllowed ∨ writeAllowed`), write permission, residency (with the
fatal `exit` when the service leaves the entry invalid), frame bounds. -/
def Translate (cfg : Cfg) (pfh : Nat → TranslationTable → TranslationTable)
    (tt : TranslationTable) (virtAddr size : Nat) (writing : Bool) :
    TranslateResult :=
  if alignmentFault size virtAddr then .fault .BUSERROR_EXCEPTION tt
  else
    let vpn := virtAddr / cfg.PageSize
    let offset := virtAddr % cfg.PageSize
    if getMaxNumPages tt ≤ vpn then .fault .ADDRESSERROR_EXCEPTION tt
    else if getBitReadAllowed tt vpn = false ∧ getBitWriteAllowed tt vpn = false then
      .fault .ADDRESSERROR_EXCEPTION tt
    else if writing = true ∧ getBitWriteAllowed tt vpn = false then
      .fault .READONLY_EXCEPTION tt
    else if getBitValid tt vpn then
      translateValid cfg tt vpn offset writing
    else
      let tt1 := pfh vpn tt
      if getBitValid tt1 vpn = false then .halt
      else translateValid cfg tt1 vpn offset writing

/-! ## Swap manager (`swapManager.cc`)

The swap manager persists page-sized blocks to a backing disk and tracks
sector occupancy in a bitmap (`page_flags`, one bit per sector, sized
`NUM_SECTORS`).  The bitmap is modelled as `List Bool` (`true` =
occupied), the disk as a list of sector contents, and the machine's
`mainMemory` as a flat list of bytes.  The sentinel `INVALID_SECTOR`
(and the equal-valued `ERROR` return of `GetFreeSwapSector`, both `-1`
cast through the unsigned compare in the source) is modelled as `none`. -/

/-- The `PageSize` bytes of physical memory starting at frame `pp`
(source expression `&g_machine->mainMemory[pp * g_cfg->PageSize]`). -/
def pageContent (cfg : Cfg) (mm : List Nat) (pp : Nat) : List Nat :=
  List.take cfg.PageSize (List.drop (pp * cfg.PageSize) mm)

/-- Modelled from the spec: `DriverDisk::WriteSector` is not under src; the
spec (section 6) describes the backing disk as a sector-addressed device
with page-sized transfers and no metadata, so a write replaces the
content of one sector. -/
def WriteSector (disk : List (List Nat)) (sector : Nat) (content : List Nat) :
    List (List Nat) :=
  List.set disk sector content

/-- Modelled from the spec: `DriverDisk::ReadSector` is not under src; it
returns the page-sized content of one sector. -/
def ReadSector (disk : List (List Nat)) (sector : Nat) : List Nat :=
  List.getD disk sector []

/-- Replace the `PageSize` bytes of frame `pp` with `content` (the effect
on `mainMemory` of reading a sector into a frame). -/
def writeFrame (cfg : Cfg) (mm : List Nat) (pp : Nat) (content : List Nat) :
    List Nat :=
  List.take (pp * cfg.PageSize) mm ++ content ++
    List.drop (pp * cfg.PageSize + cfg.PageSize) mm

/-- State owned or touched by the swap manager: the occupancy bitmap, the
swap disk, and the machine's main memory it copies pages from and to. -/
structure SwapState where
  pageFlags : List Bool
  disk : List (List Nat)
  mainMemory : List Nat
deriving DecidableEq, Repr

/-- The scan loop of `SwapManager::GetFreeSwapSector`: index of the first
clear bit of the bitmap, `none` when every bit is set. -/
def scanClear : List Bool → Option Nat
  | [] => none
  | b :: bs => if b then Option.map (fun i => i + 1) (scanClear bs) else some 0

/-- `SwapManager::GetFreeSwapSector`: scan `page_flags` for the first free
sector, mark it occupied and return it; return `ERROR` (modelled `none`)
when there is none. -/
def GetFreeSwapSector (st : SwapState) : Option Nat × SwapState :=
  match scanClear st.pageFlags with
  | none => (none, st)
  | some i => (some i, { st with pageFlags := List.set st.pageFlags i true })

/-- `SwapManager::GetPageSwap`: read sector `disk_addr` of the swap disk
into physical frame `pp`. -/
def GetPageSwap (cfg : Cfg) (st : SwapState) (disk_addr pp : Nat) : SwapState :=
  { st with
    mainMemory := writeFrame cfg st.mainMemory pp (ReadSector st.disk disk_addr) }

/-- `SwapManager::PutPageSwap`: with an associated sector (`some d`),
write frame `pp` to sector `d` and return `d`; with the sentinel
(`none`, source `INVALID_SECTOR`), claim a free sector first and write
there, or return the sentinel without writing when the swap area is
full. -/
def PutPageSwap (cfg : Cfg) (st : SwapState) (disk_addr : Option Nat)
    (pp : Nat) : Option Nat × SwapState :=
  match disk_addr with
  | some d =>
      (some d,
       { st with disk := WriteSector st.disk d (pageContent cfg st.mainMemory pp) })
  | none =>
      match GetFreeSwapSector st with
      | (none, st1) => (none, st1)
      | (some ns, st1) =>
          (some ns,
           { st1 with
             disk := WriteSector st1.disk ns (pageContent cfg st1.mainMemory pp) })

/-- `SwapManager::ReleasePageSwap`: clear the occupancy bit of a sector. -/
def ReleasePageSwap (st : SwapState) (disk_addr : Nat) : SwapState :=
  { st with pageFlags := List.set st.pageFlags disk_addr false }

/-! ## Physical memory manager (`vm/physMem.cc`) -/

/-- One entry of the physical frame table (`struct tpr_c` in physMem.h).
The `owner` AddrSpace pointer is modelled as an index into the `tables`
registry of `PMState`; a dangling or NULL `translationTable` is an index
whose lookup yields `none`. -/
structure TprEntry where
  free : Bool
  locked : Bool
  virtualPage : Nat
  owner : Nat
deriving DecidableEq, Repr

instance : Inhabited TprEntry := ⟨⟨true, false, 0, 0⟩⟩

/-- State of the physical memory manager: the frame table `tpr`, the free
page list, and the translation tables of the address spaces frames can
belong to (index = owner; `none` models `translationTable == NULL`). -/
structure PMState where
  tpr : List TprEntry
  freePageList : List Nat
  tables : List (Option TranslationTable)
deriving DecidableEq, Repr

/-- `PhysicalMemManager::FreePhysicalPage` (physMem.cc lines 65-80):
assert the frame is not free (`none` models the failed assertion), mark
it free and unlocked, clear the owner's translation-table valid bit when
the owner still has a table, and prepend the frame to the free list. -/
def FreePhysicalPage (s : PMState) (num_page : Nat) : Option PMState :=
  if (List.getD s.tpr num_page default).free then none
  else
    some { tpr := List.set s.tpr num_page
             { List.getD s.tpr num_page default with free := true, locked := false },
           freePageList := num_page :: s.freePageList,
           tables :=
             match List.getD s.tables (List.getD s.tpr num_page default).owner none with
             | none => s.tables
             | some tt =>
                 List.set s.tables (List.getD s.tpr num_page default).owner
                   (some (clearBitValid tt
                     (List.getD s.tpr num_page default).virtualPage)) }

/-- `PhysicalMemManager::UnlockPage` (physMem.cc lines 94-100): assert the
frame number is in range, the frame locked and not free, then clear the
lock (`none` models a failed assertion). -/
def UnlockPage (s : PMState) (num_page : Nat) : Option PMState :=
  if num_page < List.length s.tpr ∧
     (List.getD s.tpr num_page default).locked = true ∧
     (List.getD s.tpr num_page default).free = false then
    some { s with
           tpr := List.set s.tpr num_page
             { List.getD s.tpr num_page default with locked := false } }
  else none

/-- `PhysicalMemManager::SetTPREntry` (physMem.cc lines 116-120): set the
`virtualPage`, `owner` and `locked` members of one frame-table entry,
leaving `free` untouched. -/
def SetTPREntry (s : PMState) (pp virtualpage : Nat) (owner : Nat)
    (locked : Bool) : PMState :=
  { s with
    tpr := List.set s.tpr pp
      { List.getD s.tpr pp default with
        virtualPage := virtualpage, owner := owner, locked := locked } }

/-- Result of `PhysicalMemManager::FindFreePage`: `invalidPage` models the
`INVALID_PAGE` return on an empty free list, `page p s` the successful
removal of frame `p`, `assertFail` the `ASSERT(tpr[page].free)`. -/
inductive FindFreeResult where
  | invalidPage (s : PMState)
  | page (p : Nat) (s : PMState)
  | assertFail
deriving DecidableEq, Repr

/-- `PhysicalMemManager::FindFreePage` (physMem.cc lines 131-153): return
`INVALID_PAGE` when the free list is empty, else remove the head of the
free list, assert it is marked free, and mark it occupied. -/
def FindFreePage (s : PMState) : FindFreeResult :=
  match s.freePageList with
  | [] => .invalidPage s
  | p :: rest =>
      if (List.getD s.tpr p default).free then
        .page p { s with
                  tpr := List.set s.tpr p { List.getD s.tpr p default with free := false },
                  freePageList := rest }
      else .assertFail

/-- `PhysicalMemManager::EvictPage` as it stands in physMem.cc lines
164-169: an unimplemented stub that prints a warning and calls
`exit(ERROR)`; it never returns a frame. -/
inductive EvictStubResult where
  | halt
deriving DecidableEq, Repr

/-- The stub `EvictPage` of the source: unconditionally halts. -/
def EvictPage (_s : PMState) : EvictStubResult := .halt

/-! ## Clock-algorithm eviction, modelled from the spec

`EvictPage` in the source is an unimplemented stub (above), so the
eviction behavior the spec describes is modelled from the spec's own
words (section 4.2). -/

/-- The per-frame state the clock algorithm consults: the frame's `free`
and `locked` flags from the frame table, and the `used` bit of the
translation-table entry mapping it. -/
structure ClockFrame where
  free : Bool
  locked : Bool
  used : Bool
deriving DecidableEq, Repr

instance : Inhabited ClockFrame := ⟨⟨false, false, false⟩⟩

/-- Modelled from the spec: `PhysicalMemManager::EvictPage` is an
unimplemented stub in src/vm/physMem.cc, so this is the clock algorithm
of spec section 4.2 — repeatedly advance the rotating cursor (`i_clock`)
over all frames; skip a locked frame; if the mapping's `used` bit is set,
clear it and continue (second chance); otherwise select this frame as the
victim.  The cursor is kept as a raw counter and reduced modulo the frame
count at each use, which is the same rotation; `fuel` bounds the number
of steps, `none` meaning the bound was exhausted. -/
def evictClock : List ClockFrame → Nat → Nat → Option (Nat × List ClockFrame)
  | _, _, 0 => none
  | frames, cursor, fuel + 1 =>
    let i := (cursor + 1) % List.length frames
    let f := List.getD frames i default
    if f.locked then evictClock frames (cursor + 1) fuel
    else if f.used then
      evictClock (List.set frames i { f with used := false }) (cursor + 1) fuel
    else some (i, frames)

/-! ## Frame-table consistency invariant (spec sections 3 and 8) -/

/-- Whether owner `o` has a translation table whose entry `vp` is valid. -/
def validAt (s : PMState) (o vp : Nat) : Bool :=
  match List.getD s.tables o none with
  | none => false
  | some tt => getBitValid tt vp

/-- The physical page recorded at owner `o`, entry `vp` (junk `-1` when
the owner has no table; only consulted under `validAt`). -/
def ppAt (s : PMState) (o vp : Nat) : Int :=
  match List.getD s.tables o none with
  | none => -1
  | some tt => getPhysicalPage tt vp

/-- Number of entries of owner `o`'s translation table. -/
def tableLen (s : PMState) (o : Nat) : Nat :=
  match List.getD s.tables o none with
  | none => 0
  | some tt => getMaxNumPages tt

/-- The spec's frame-disjointness invariant (sections 3 and 8): no two
distinct `(owner, virtualPage)` pairs with valid entries name the same
physical frame, and every non-free frame's back-reference names a valid
translation-table entry that points back at that frame. -/
def FrameInv (s : PMState) : Prop :=
  (∀ o1, o1 < List.length s.tables → ∀ v1, v1 < tableLen s o1 →
   ∀ o2, o2 < List.length s.tables → ∀ v2, v2 < tableLen s o2 →
    validAt s o1 v1 = true → validAt s o2 v2 = true →
    ppAt s o1 v1 = ppAt s o2 v2 → o1 = o2 ∧ v1 = v2) ∧
  (∀ f, f < List.length s.tpr → (List.getD s.tpr f default).free = false →
    validAt s (List.getD s.tpr f default).owner
      (List.getD s.tpr f default).virtualPage = true ∧
    ppAt s (List.getD s.tpr f default).owner
      (List.getD s.tpr f default).virtualPage = (f : Int))

instance (s : PMState) : Decidable (FrameInv s) := by
  unfold FrameInv
  exact @instDecidableAnd _ _
    (@Nat.decidableBallLT _ _ (fun o1 _ =>
      @Nat.decidableBallLT _ _ (fun v1 _ =>
        @Nat.decidableBallLT _ _ (fun o2 _ =>
          @Nat.decidableBallLT _ _ (fun v2 _ => inferInstance)))))
    (@Nat.decidableBallLT _ _ (fun f _ => inferInstance))

/-! ## Basic lemmas about translation-table accessors -/

lemma getEntry_set (tt : TranslationTable) (i j : Nat) (e : PageTableEntry) :
    getEntry (List.set tt i e) j =
      if i = j ∧ i < List.length tt then e else getEntry tt j := by
  unfold getEntry
  rcases eq_or_ne i j with rfl | hne
  · rcases Nat.lt_or_ge i (List.length tt) with h | h
    · simp [List.getD_eq_getElem?_getD, List.getElem?_set_self, h]
    · rw [List.set_eq_of_length_le h]
      simp [Nat.not_lt_of_ge h]
  · simp [hne, List.getD_eq_getElem?_getD, List.getElem?_set_ne hne]

lemma getEntry_of_length_le (tt : TranslationTable) (vpn : Nat)
    (h : List.length tt ≤ vpn) : getEntry tt vpn = default := by
  unfold getEntry
  simp [List.getD_eq_getElem?_getD, List.getElem?_eq_none h]

/-- A valid entry lies inside the table: out-of-range lookups give the
default entry, whose `valid` bit is clear. -/
lemma lt_length_of_valid (tt : TranslationTable) (vpn : Nat)
    (h : getBitValid tt vpn = true) : vpn < List.length tt := by
  by_contra hc
  rw [Nat.not_lt] at hc
  unfold getBitValid at h
  rw [getEntry_of_length_le tt vpn hc] at h
  simp [default] at h

lemma length_setBitU (tt : TranslationTable) (vpn : Nat) :
    List.length (setBitU tt vpn) = List.length tt := by
  unfold setBitU
  exact List.length_set tt _ _

lemma length_setBitM (tt : TranslationTable) (vpn : Nat) :
    List.length (setBitM tt vpn) = List.length tt := by
  unfold setBitM
  exact List.length_set tt _ _

lemma getEntry_setBitU (tt : TranslationTable) (i j : Nat) :
    getEntry (setBitU tt i) j =
      if i = j ∧ i < List.length tt then { getEntry tt i with bitU := true }
      else getEntry tt j := by
  unfold setBitU
  exact getEntry_set tt i j _

lemma getEntry_setBitM (tt : TranslationTable) (i j : Nat) :
    getEntry (setBitM tt i) j =
      if i = j ∧ i < List.length tt then { getEntry tt i with bitM := true }
      else getEntry tt j := by
  unfold setBitM
  exact getEntry_set tt i j _

lemma getBitValid_setBitU (tt : TranslationTable) (i j : Nat) :
    getBitValid (setBitU tt i) j = getBitValid tt j := by
  unfold getBitValid
  rw [getEntry_setBitU]
  split
  · rename_i h
    rw [h.1]
  · rfl

lemma getBitValid_setBitM (tt : TranslationTable) (i j : Nat) :
    getBitValid (setBitM tt i) j = getBitValid tt j := by
  unfold getBitValid
  rw [getEntry_setBitM]
  split
  · rename_i h
    rw [h.1]
  · rfl

lemma getBitReadAllowed_setBitU (tt : TranslationTable) (i j : Nat) :
    getBitReadAllowed (setBitU tt i) j = getBitReadAllowed tt j := by
  unfold getBitReadAllowed
  rw [getEntry_setBitU]
  split
  · rename_i h
    rw [h.1]
  · rfl

lemma getBitReadAllowed_setBitM (tt : TranslationTable) (i j : Nat) :
    getBitReadAllowed (setBitM tt i) j = getBitReadAllowed tt j := by
  unfold getBitReadAllowed
  rw [getEntry_setBitM]
  split
  · rename_i h
    rw [h.1]
  · rfl

lemma getBitWriteAllowed_setBitU (tt : TranslationTable) (i j : Nat) :
    getBitWriteAllowed (setBitU tt i) j = getBitWriteAllowed tt j := by
  unfold getBitWriteAllowed
  rw [getEntry_setBitU]
  split
  · rename_i h
    rw [h.1]
  · rfl

lemma getBitWriteAllowed_setBitM (tt : TranslationTable) (i j : Nat) :
    getBitWriteAllowed (setBitM tt i) j = getBitWriteAllowed tt j := by
  unfold getBitWriteAllowed
  rw [getEntry_setBitM]
  split
  · rename_i h
    rw [h.1]
  · rfl

lemma getPhysicalPage_setBitU (tt : TranslationTable) (i j : Nat) :
    getPhysicalPage (setBitU tt i) j = getPhysicalPage tt j := by
  unfold getPhysicalPage
  rw [getEntry_setBitU]
  split
  · rename_i h
    rw [h.1]
  · rfl

lemma getPhysicalPage_setBitM (tt : TranslationTable) (i j : Nat) :
    getPhysicalPage (setBitM tt i) j = getPhysicalPage tt j := by
  unfold getPhysicalPage
  rw [getEntry_setBitM]
  split
  · rename_i h
    rw [h.1]
  · rfl

lemma getBitU_setBitU (tt : TranslationTable) (vpn : Nat)
    (h : vpn < List.length tt) : getBitU (setBitU tt vpn) vpn = true := by
  unfold getBitU
  rw [getEntry_setBitU]
  simp [h]

lemma getBitM_setBitU (tt : TranslationTable) (i j : Nat) :
    getBitM (setBitU tt i) j = getBitM tt j := by
  unfold getBitM
  rw [getEntry_setBitU]
  split
  · rename_i h
    rw [h.1]
  · rfl

lemma getBitM_setBitM (tt : TranslationTable) (vpn : Nat)
    (h : vpn < List.length tt) : getBitM (setBitM tt vpn) vpn = true := by
  unfold getBitM
  rw [getEntry_setBitM]
  simp [h]

/-! ## Reduction lemmas for `Translate` -/

/-- After the alignment, range, mapped and permission checks pass,
`Translate` reduces to the residency step. -/
lemma Translate_reduce (cfg : Cfg) (pfh : Nat → TranslationTable → TranslationTable)
    (tt : TranslationTable) (virtAddr size : Nat) (writing : Bool)
    (ha : alignmentFault size virtAddr = false)
    (hr : virtAddr / cfg.PageSize < getMaxNumPages tt)
    (hm : getBitReadAllowed tt (virtAddr / cfg.PageSize) = true ∨
          getBitWriteAllowed tt (virtAddr / cfg.PageSize) = true)
    (hp : writing = true → getBitWriteAllowed tt (virtAddr / cfg.PageSize) = true) :
    Translate cfg pfh tt virtAddr size writing =
      (if getBitValid tt (virtAddr / cfg.PageSize) then
         translateValid cfg tt (virtAddr / cfg.PageSize) (virtAddr % cfg.PageSize) writing
       else if getBitValid (pfh (virtAddr / cfg.PageSize) tt) (virtAddr / cfg.PageSize) = false
       then .halt
       else translateValid cfg (pfh (virtAddr / cfg.PageSize) tt)
              (virtAddr / cfg.PageSize) (virtAddr % cfg.PageSize) writing) := by
  have h2 : ¬(getMaxNumPages tt ≤ virtAddr / cfg.PageSize) := Nat.not_le.mpr hr
  have h3 : ¬(getBitReadAllowed tt (virtAddr / cfg.PageSize) = false ∧
              getBitWriteAllowed tt (virtAddr / cfg.PageSize) = false) := by
    rcases hm with h | h <;> simp [h]
  have h4 : ¬(writing = true ∧ getBitWriteAllowed tt (virtAddr / cfg.PageSize) = false) := by
    rintro ⟨hw, hw2⟩
    rw [hp hw] at hw2
    cases hw2
  unfold Translate
  simp only [ha, Bool.false_eq_true, if_false, h2, h3, h4, ite_false, if_neg,
    not_false_eq_true]

/-- When the resolved physical page is in bounds, the valid-entry tail of
`Translate` succeeds, setting M (on a write) and U. -/
lemma translateValid_ok (cfg : Cfg) (tt : TranslationTable) (vpn offset : Nat)
    (writing : Bool)
    (hb1 : 0 ≤ getPhysicalPage tt vpn)
    (hb2 : getPhysicalPage tt vpn < (cfg.NumPhysPages : Int)) :
    translateValid cfg tt vpn offset writing =
      .ok ((getPhysicalPage tt vpn).toNat * cfg.PageSize + offset)
          (setBitU (if writing then setBitM tt vpn else tt) vpn) := by
  unfold translateValid
  rw [if_neg]
  rintro (h | h) <;> omega

/-! ## Claim theorems about the MMU -/

/-- C5: a 4-byte access at an address that is not a multiple of 4, and a
2-byte access at an odd address, return `BusError` before any other check
runs (for every translation table and page-fault handler, so in
particular on out-of-range or unmapped pages); the alignment guard never
fires for 1-byte or 8-byte accesses at any address. -/
theorem mmu_alignment_check (cfg : Cfg)
    (pfh : Nat → TranslationTable → TranslationTable) (tt : TranslationTable)
    (virtAddr : Nat) (writing : Bool) :
    (virtAddr % 4 ≠ 0 →
      Translate cfg pfh tt virtAddr 4 writing = .fault .BUSERROR_EXCEPTION tt) ∧
    (virtAddr % 2 ≠ 0 →
      Translate cfg pfh tt virtAddr 2 writing = .fault .BUSERROR_EXCEPTION tt) ∧
    alignmentFault 1 virtAddr = false ∧ alignmentFault 8 virtAddr = false := by
  refine ⟨fun h => ?_, fun h => ?_, rfl, rfl⟩
  · have hb : alignmentFault 4 virtAddr = true := by
      simp [alignmentFault, h]
    unfold Translate
    rw [hb]
    rfl
  · have hb : alignmentFault 2 virtAddr = true := by
      simp [alignmentFault, h]
      omega
    unfold Translate
    rw [hb]
    rfl

/-- Witness for C5: address `0x1003` with a 4-byte access yields
`BusError` even on an empty (hence out-of-range, unmapped) table. -/
theorem mmu_alignment_check_witness :
    (0x1003 % 4 ≠ 0) ∧
    Translate ⟨128, 16⟩ (fun _ t => t) ([] : TranslationTable) 0x1003 4 false =
      .fault .BUSERROR_EXCEPTION ([] : TranslationTable) :=
  ⟨by decide,
   (mmu_alignment_check ⟨128, 16⟩ (fun _ t => t) ([] : TranslationTable)
     0x1003 false).1 (by decide)⟩

/-- C6: an aligned, in-range access to a page with both permission bits
clear returns `AddressError`, for every value of the entry's valid bit
and whether reading or writing. -/
theorem mmu_unmapped_addresserror (cfg : Cfg)
    (pfh : Nat → TranslationTable → TranslationTable) (tt : TranslationTable)
    (virtAddr size : Nat) (writing : Bool)
    (ha : alignmentFault size virtAddr = false)
    (hr : virtAddr / cfg.PageSize < getMaxNumPages tt)
    (hra : getBitReadAllowed tt (virtAddr / cfg.PageSize) = false)
    (hwa : getBitWriteAllowed tt (virtAddr / cfg.PageSize) = false) :
    Translate cfg pfh tt virtAddr size writing = .fault .ADDRESSERROR_EXCEPTION tt := by
  have h2 : ¬(getMaxNumPages tt ≤ virtAddr / cfg.PageSize) := Nat.not_le.mpr hr
  unfold Translate
  simp only [ha, Bool.false_eq_true, if_false, h2, ite_false, if_neg,
    not_false_eq_true, hra, hwa, and_self, if_pos]

/-- Witness for C6: a valid, resident page with both permission bits
clear still translates to `AddressError` (one page of size 128, entry
valid with physical page 0, `readAllowed = writeAllowed = false`). -/
theorem mmu_unmapped_addresserror_witness :
    alignmentFault 4 0 = false ∧
    (0 / (128 : Nat) < getMaxNumPages [⟨true, false, false, false, false, 0, -1⟩]) ∧
    Translate ⟨128, 16⟩ (fun _ t => t)
      [⟨true, false, false, false, false, 0, -1⟩] 0 4 true =
      .fault .ADDRESSERROR_EXCEPTION [⟨true, false, false, false, false, 0, -1⟩] :=
  ⟨by decide, by decide,
   mmu_unmapped_addresserror ⟨128, 16⟩ (fun _ t => t)
     [⟨true, false, false, false, false, 0, -1⟩] 0 4 true
     (by decide) (by decide) (by decide) (by decide)⟩

/-- C1: when the alignment, range, mapped, permission and frame-bounds
checks pass and the entry is valid (or becomes valid after the page-fault
service `pfh`), `Translate` returns `NO_EXCEPTION` with physical address
`physicalPage * PageSize + virtAddr mod PageSize`, sets the entry's U
bit, sets its M bit when writing, and leaves the M bit untouched when
reading. -/
theorem mmu_translate_success (cfg : Cfg)
    (pfh : Nat → TranslationTable → TranslationTable)
    (tt tt1 : TranslationTable) (virtAddr size : Nat) (writing : Bool)
    (ha : alignmentFault size virtAddr = false)
    (hr : virtAddr / cfg.PageSize < getMaxNumPages tt)
    (hm : getBitReadAllowed tt (virtAddr / cfg.PageSize) = true ∨
          getBitWriteAllowed tt (virtAddr / cfg.PageSize) = true)
    (hp : writing = true → getBitWriteAllowed tt (virtAddr / cfg.PageSize) = true)
    (htt1 : tt1 = if getBitValid tt (virtAddr / cfg.PageSize) then tt
                  else pfh (virtAddr / cfg.PageSize) tt)
    (hv : getBitValid tt1 (virtAddr / cfg.PageSize) = true)
    (hb1 : 0 ≤ getPhysicalPage tt1 (virtAddr / cfg.PageSize))
    (hb2 : getPhysicalPage tt1 (virtAddr / cfg.PageSize) < (cfg.NumPhysPages : Int)) :
    ∃ ttf,
      Translate cfg pfh tt virtAddr size writing =
        .ok ((getPhysicalPage tt1 (virtAddr / cfg.PageSize)).toNat * cfg.PageSize +
              virtAddr % cfg.PageSize) ttf ∧
      getBitU ttf (virtAddr / cfg.PageSize) = true ∧
      (writing = true → getBitM ttf (virtAddr / cfg.PageSize) = true) ∧
      (writing = false →
        getBitM ttf (virtAddr / cfg.PageSize) = getBitM tt1 (virtAddr / cfg.PageSize)) := by
  have hlen : virtAddr / cfg.PageSize < List.length tt1 :=
    lt_length_of_valid tt1 _ hv
  have hred := Translate_reduce cfg pfh tt virtAddr size writing ha hr hm hp
  have hres : Translate cfg pfh tt virtAddr size writing =
      translateValid cfg tt1 (virtAddr / cfg.PageSize) (virtAddr % cfg.PageSize) writing := by
    rcases hvt : getBitValid tt (virtAddr / cfg.PageSize) with _ | _
    · have htt1e : tt1 = pfh (virtAddr / cfg.PageSize) tt := by
        rw [htt1, if_neg]
        simp [hvt]
      rw [hred, if_neg (by simp [hvt]), if_neg (by rw [← htt1e, hv]; simp)]
      rw [htt1e]
    · have htt1e : tt1 = tt := by
        rw [htt1, if_pos hvt]
      rw [hred, if_pos hvt, htt1e]
  rw [hres, translateValid_ok cfg tt1 _ _ writing hb1 hb2]
  refine ⟨_, rfl, ?_, fun hw => ?_, fun hw => ?_⟩
  · apply getBitU_setBitU
    cases writing
    · simpa using hlen
    · simpa [length_setBitM] using hlen
  · rw [hw]
    simp only [if_pos]
    rw [getBitM_setBitU]
    exact getBitM_setBitM tt1 _ hlen
  · rw [hw]
    simp only [Bool.false_eq_true, if_false]
    rw [getBitM_setBitU]

/-- Witness for C1: page size 128, one table with an initially invalid
entry the fault handler makes valid at physical page 2; a write to
address 130 succeeds at physical address `2 * 128 + 2`, with U and M
set. -/
theorem mmu_translate_success_witness :
    (getBitValid [⟨true, true, true, false, false, 2, -1⟩] (2 / 128) = true) ∧
    (∃ ttf,
      Translate ⟨128, 16⟩
        (fun vpn t => List.set t vpn { getEntry t vpn with valid := true, physicalPage := 2 })
        [⟨false, true, true, false, false, 2, -1⟩] 2 2 true =
        .ok ((getPhysicalPage [⟨true, true, true, false, false, 2, -1⟩] (2 / 128)).toNat * 128 +
              2 % 128) ttf ∧
      getBitU ttf (2 / 128) = true ∧
      (true = true → getBitM ttf (2 / 128) = true) ∧
      (true = false →
        getBitM ttf (2 / 128) = getBitM [⟨true, true, true, false, false, 2, -1⟩] (2 / 128))) :=
  ⟨by decide,
   mmu_translate_success ⟨128, 16⟩
     (fun vpn t => List.set t vpn { getEntry t vpn with valid := true, physicalPage := 2 })
     [⟨false, true, true, false, false, 2, -1⟩]
     [⟨true, true, true, false, false, 2, -1⟩] 2 2 true
     (by decide) (by decide) (by decide) (by decide) (by decide) (by decide)
     (by decide) (by decide)⟩

/-- C3: on an aligned, in-range, mapped, permission-satisfying access to
an invalid entry, the translator invokes the page-fault service on that
virtual page; if the entry is still invalid when the service returns the
kernel halts (and no fault code is returned for this case), and if the
entry became valid translation proceeds with the normal valid-entry tail,
which never halts. -/
theorem mmu_pagefault_halt_or_proceed (cfg : Cfg)
    (pfh : Nat → TranslationTable → TranslationTable) (tt : TranslationTable)
    (virtAddr size : Nat) (writing : Bool)
    (ha : alignmentFault size virtAddr = false)
    (hr : virtAddr / cfg.PageSize < getMaxNumPages tt)
    (hm : getBitReadAllowed tt (virtAddr / cfg.PageSize) = true ∨
          getBitWriteAllowed tt (virtAddr / cfg.PageSize) = true)
    (hp : writing = true → getBitWriteAllowed tt (virtAddr / cfg.PageSize) = true)
    (hnv : getBitValid tt (virtAddr / cfg.PageSize) = false) :
    (getBitValid (pfh (virtAddr / cfg.PageSize) tt) (virtAddr / cfg.PageSize) = false →
      Translate cfg pfh tt virtAddr size writing = .halt) ∧
    (getBitValid (pfh (virtAddr / cfg.PageSize) tt) (virtAddr / cfg.PageSize) = true →
      Translate cfg pfh tt virtAddr size writing =
        translateValid cfg (pfh (virtAddr / cfg.PageSize) tt)
          (virtAddr / cfg.PageSize) (virtAddr % cfg.PageSize) writing) ∧
    (∀ (tt2 : TranslationTable) (vpn2 off2 : Nat) (w2 : Bool),
      translateValid cfg tt2 vpn2 off2 w2 ≠ .halt) := by
  have hred := Translate_reduce cfg pfh tt virtAddr size writing ha hr hm hp
  refine ⟨fun hsv => ?_, fun hsv => ?_, fun tt2 vpn2 off2 w2 => ?_⟩
  · rw [hred, if_neg (by simp [hnv]), if_pos hsv]
  · rw [hred, if_neg (by simp [hnv]), if_neg (by rw [hsv]; simp)]
  · unfold translateValid
    split
    · intro hc
      cases hc
    · intro hc
      cases hc

/-- Witness for C3: with a fault handler that never makes the entry
valid, translating an invalid mapped page halts the kernel. -/
theorem mmu_pagefault_halt_or_proceed_witness :
    (getBitValid ((fun (_ : Nat) (t : TranslationTable) => t) (0 / 128)
        [⟨false, true, true, false, false, 2, -1⟩]) (0 / 128) = false) ∧
    Translate ⟨128, 16⟩ (fun _ t => t)
      [⟨false, true, true, false, false, 2, -1⟩] 0 4 false = .halt :=
  ⟨by decide,
   (mmu_pagefault_halt_or_proceed ⟨128, 16⟩ (fun _ t => t)
     [⟨false, true, true, false, false, 2, -1⟩] 0 4 false
     (by decide) (by decide) (by decide) (by decide) (by decide)).1 (by decide)⟩

/-- C7: on an aligned, in-range page with `readAllowed = true` and
`writeAllowed = false`, a write returns `ReadOnlyError`, while a read of
the same page succeeds whenever residency (the entry is, or is made,
valid) and the frame-bounds check pass. -/
theorem mmu_readonly_enforcement (cfg : Cfg)
    (pfh : Nat → TranslationTable → TranslationTable)
    (tt tt1 : TranslationTable) (virtAddr size : Nat)
    (ha : alignmentFault size virtAddr = false)
    (hr : virtAddr / cfg.PageSize < getMaxNumPages tt)
    (hra : getBitReadAllowed tt (virtAddr / cfg.PageSize) = true)
    (hwa : getBitWriteAllowed tt (virtAddr / cfg.PageSize) = false)
    (htt1 : tt1 = if getBitValid tt (virtAddr / cfg.PageSize) then tt
                  else pfh (virtAddr / cfg.PageSize) tt) :
    Translate cfg pfh tt virtAddr size true = .fault .READONLY_EXCEPTION tt ∧
    (getBitValid tt1 (virtAddr / cfg.PageSize) = true →
     0 ≤ getPhysicalPage tt1 (virtAddr / cfg.PageSize) →
     getPhysicalPage tt1 (virtAddr / cfg.PageSize) < (cfg.NumPhysPages : Int) →
     ∃ p ttf, Translate cfg pfh tt virtAddr size false = .ok p ttf) := by
  constructor
  · have h2 : ¬(getMaxNumPages tt ≤ virtAddr / cfg.PageSize) := Nat.not_le.mpr hr
    unfold Translate
    simp [ha, h2, hra, hwa]
  · intro hv hb1 hb2
    have hred := Translate_reduce cfg pfh tt virtAddr size false ha hr (Or.inl hra)
      (fun h => by cases h)
    have hres : Translate cfg pfh tt virtAddr size false =
        translateValid cfg tt1 (virtAddr / cfg.PageSize) (virtAddr % cfg.PageSize) false := by
      rcases hvt : getBitValid tt (virtAddr / cfg.PageSize) with _ | _
      · have htt1e : tt1 = pfh (virtAddr / cfg.PageSize) tt := by
          rw [htt1, if_neg]
          simp [hvt]
        rw [hred, if_neg (by simp [hvt]), if_neg (by rw [← htt1e, hv]; simp)]
        rw [htt1e]
      · have htt1e : tt1 = tt := by
          rw [htt1, if_pos hvt]
        rw [hred, if_pos hvt, htt1e]
    rw [hres, translateValid_ok cfg tt1 _ _ false hb1 hb2]
    exact ⟨_, _, rfl⟩

/-- Witness for C7: a resident read-only page (physical page 1, page size
128): a write faults with `ReadOnlyError` and a read succeeds. -/
theorem mmu_readonly_enforcement_witness :
    Translate ⟨128, 16⟩ (fun _ t => t)
      [⟨true, true, false, false, false, 1, -1⟩] 4 4 true =
      .fault .READONLY_EXCEPTION [⟨true, true, false, false, false, 1, -1⟩] ∧
    (getBitValid [⟨true, true, false, false, false, 1, -1⟩] (4 / 128) = true) ∧
    (∃ p ttf, Translate ⟨128, 16⟩ (fun _ t => t)
      [⟨true, true, false, false, false, 1, -1⟩] 4 4 false = .ok p ttf) := by
  have h := mmu_readonly_enforcement ⟨128, 16⟩ (fun _ t => t)
    [⟨true, true, false, false, false, 1, -1⟩]
    [⟨true, true, false, false, false, 1, -1⟩] 4 4
    (by decide) (by decide) (by decide) (by decide) (by decide)
  exact ⟨h.1, by decide, h.2 (by decide) (by decide) (by decide)⟩

/-- Inversion of a successful translation: every check passed, and the
result is built from the table the residency step left behind. -/
lemma Translate_ok_inv (cfg : Cfg)
    (pfh : Nat → TranslationTable → TranslationTable) (tt : TranslationTable)
    (virtAddr size : Nat) (writing : Bool) (p : Nat) (ttf : TranslationTable)
    (h : Translate cfg pfh tt virtAddr size writing = .ok p ttf) :
    alignmentFault size virtAddr = false ∧
    virtAddr / cfg.PageSize < getMaxNumPages tt ∧
    (getBitReadAllowed tt (virtAddr / cfg.PageSize) = true ∨
     getBitWriteAllowed tt (virtAddr / cfg.PageSize) = true) ∧
    (writing = true → getBitWriteAllowed tt (virtAddr / cfg.PageSize) = true) ∧
    ∃ tt1, (tt1 = tt ∨ tt1 = pfh (virtAddr / cfg.PageSize) tt) ∧
      getBitValid tt1 (virtAddr / cfg.PageSize) = true ∧
      0 ≤ getPhysicalPage tt1 (virtAddr / cfg.PageSize) ∧
      getPhysicalPage tt1 (virtAddr / cfg.PageSize) < (cfg.NumPhysPages : Int) ∧
      p = (getPhysicalPage tt1 (virtAddr / cfg.PageSize)).toNat * cfg.PageSize +
            virtAddr % cfg.PageSize ∧
      ttf = setBitU
        (if writing then setBitM tt1 (virtAddr / cfg.PageSize) else tt1)
        (virtAddr / cfg.PageSize) := by
  unfold Translate at h
  by_cases h1 : alignmentFault size virtAddr = true
  · rw [if_pos h1] at h
    cases h
  · rw [if_neg h1] at h
    rw [Bool.not_eq_true] at h1
    refine ⟨h1, ?_⟩
    by_cases h2 : getMaxNumPages tt ≤ virtAddr / cfg.PageSize
    · rw [if_pos h2] at h
      cases h
    · rw [if_neg h2] at h
      refine ⟨Nat.not_le.mp h2, ?_⟩
      by_cases h3 : getBitReadAllowed tt (virtAddr / cfg.PageSize) = false ∧
          getBitWriteAllowed tt (virtAddr / cfg.PageSize) = false
      · rw [if_pos h3] at h
        cases h
      · rw [if_neg h3] at h
        rw [Classical.not_and_iff_or_not_not] at h3
        refine ⟨by rcases h3 with h3 | h3 <;> simp [Bool.not_eq_false] at h3 <;>
          [exact Or.inl h3; exact Or.inr h3], ?_⟩
        by_cases h4 : writing = true ∧
            getBitWriteAllowed tt (virtAddr / cfg.PageSize) = false
        · rw [if_pos h4] at h
          cases h
        · rw [if_neg h4] at h
          rw [Classical.not_and_iff_or_not_not] at h4
          refine ⟨fun hw => ?_, ?_⟩
          · rcases h4 with h4 | h4
            · exact absurd hw h4
            · rwa [Bool.not_eq_false] at h4
          · by_cases h5 : getBitValid tt (virtAddr / cfg.PageSize) = true
            · rw [if_pos h5] at h
              refine ⟨tt, Or.inl rfl, h5, ?_⟩
              unfold translateValid at h
              by_cases h6 : getPhysicalPage tt (virtAddr / cfg.PageSize) < 0 ∨
                  (cfg.NumPhysPages : Int) ≤ getPhysicalPage tt (virtAddr / cfg.PageSize)
              · rw [if_pos h6] at h
                cases h
              · rw [if_neg h6] at h
                rcases h
                push_neg at h6
                exact ⟨h6.1, h6.2, rfl, rfl⟩
            · rw [if_neg h5] at h
              by_cases h7 : getBitValid (pfh (virtAddr / cfg.PageSize) tt)
                  (virtAddr / cfg.PageSize) = false
              · rw [if_pos h7] at h
                cases h
              · rw [if_neg h7] at h
                refine ⟨pfh (virtAddr / cfg.PageSize) tt, Or.inr rfl,
                  by simpa using h7, ?_⟩
                unfold translateValid at h
                by_cases h6 : getPhysicalPage (pfh (virtAddr / cfg.PageSize) tt)
                    (virtAddr / cfg.PageSize) < 0 ∨
                    (cfg.NumPhysPages : Int) ≤
                      getPhysicalPage (pfh (virtAddr / cfg.PageSize) tt)
                        (virtAddr / cfg.PageSize)
                · rw [if_pos h6] at h
                  cases h
                · rw [if_neg h6] at h
                  rcases h
                  push_neg at h6
                  exact ⟨h6.1, h6.2, rfl, rfl⟩

/-- C10: translation is idempotent in its result.  If a call returns
`NO_EXCEPTION` with physical address `p` and leaves the table in state
`ttf`, an immediately following call with the same arguments on `ttf`
also returns `NO_EXCEPTION` with the same `p` (`ReadMem`/`WriteMem` rely
on this: they translate each access twice and assert both physical
addresses agree).  The hypothesis on `pfh` states that the page-fault
service does not alter the permission bits — per spec section 4.4 it only
installs `physicalPage` and `valid` — which the source's real handler
satisfies. -/
theorem mmu_translate_idempotent (cfg : Cfg)
    (pfh : Nat → TranslationTable → TranslationTable) (tt : TranslationTable)
    (virtAddr size : Nat) (writing : Bool) (p : Nat) (ttf : TranslationTable)
    (hpfh : ∀ j t i, getBitReadAllowed (pfh j t) i = getBitReadAllowed t i ∧
                     getBitWriteAllowed (pfh j t) i = getBitWriteAllowed t i)
    (h : Translate cfg pfh tt virtAddr size writing = .ok p ttf) :
    ∃ ttf2, Translate cfg pfh ttf virtAddr size writing = .ok p ttf2 := by
  obtain ⟨ha, _, hm, hp, tt1, htt1, hv, hb1, hb2, hpv, httf⟩ :=
    Translate_ok_inv cfg pfh tt virtAddr size writing p ttf h
  have hlen1 : virtAddr / cfg.PageSize < List.length tt1 :=
    lt_length_of_valid tt1 _ hv
  -- the second call sees the same permission, validity and frame data
  have hra2 : getBitReadAllowed ttf (virtAddr / cfg.PageSize) =
      getBitReadAllowed tt (virtAddr / cfg.PageSize) := by
    rw [httf, getBitReadAllowed_setBitU]
    rcases htt1 with rfl | rfl
    · cases writing <;> simp [getBitReadAllowed_setBitM]
    · cases writing <;> simp [getBitReadAllowed_setBitM, (hpfh _ _ _).1]
  have hwa2 : getBitWriteAllowed ttf (virtAddr / cfg.PageSize) =
      getBitWriteAllowed tt (virtAddr / cfg.PageSize) := by
    rw [httf, getBitWriteAllowed_setBitU]
    rcases htt1 with rfl | rfl
    · cases writing <;> simp [getBitWriteAllowed_setBitM]
    · cases writing <;> simp [getBitWriteAllowed_setBitM, (hpfh _ _ _).2]
  have hv2 : getBitValid ttf (virtAddr / cfg.PageSize) = true := by
    rw [httf, getBitValid_setBitU]
    cases writing <;> simpa [getBitValid_setBitM] using hv
  have hpp2 : getPhysicalPage ttf (virtAddr / cfg.PageSize) =
      getPhysicalPage tt1 (virtAddr / cfg.PageSize) := by
    rw [httf, getPhysicalPage_setBitU]
    cases writing <;> simp [getPhysicalPage_setBitM]
  have hr2 : virtAddr / cfg.PageSize < getMaxNumPages ttf :=
    lt_length_of_valid ttf _ hv2
  have hred := Translate_reduce cfg pfh ttf virtAddr size writing ha hr2
    (by rw [hra2, hwa2]; exact hm) (fun hw => by rw [hwa2]; exact hp hw)
  rw [hred, if_pos hv2,
    translateValid_ok cfg ttf _ _ writing (hpp2 ▸ hb1) (hpp2 ▸ hb2)]
  exact ⟨_, by rw [hpp2, hpv]⟩

/-- Witness for C10: a resident writable page; the first write
translation succeeds and the immediate second translation returns the
same physical address. -/
theorem mmu_translate_idempotent_witness :
    Translate ⟨128, 16⟩ (fun _ t => t)
      [⟨true, true, true, false, false, 3, -1⟩] 8 4 true =
      .ok 392 [⟨true, true, true, true, true, 3, -1⟩] ∧
    (∃ ttf2, Translate ⟨128, 16⟩ (fun _ t => t)
      [⟨true, true, true, true, true, 3, -1⟩] 8 4 true = .ok 392 ttf2) :=
  ⟨by decide,
   mmu_translate_idempotent ⟨128, 16⟩ (fun _ t => t)
     [⟨true, true, true, false, false, 3, -1⟩] 8 4 true 392
     [⟨true, true, true, true, true, 3, -1⟩]
     (fun _ _ _ => ⟨rfl, rfl⟩) (by decide)⟩

/-! ## Lemmas about lists and the swap bitmap scan -/

lemma list_getD_set_self {α : Type} (l : List α) (i : Nat) (a d : α)
    (h : i < l.length) : (l.set i a).getD i d = a := by
  simp [List.getD_eq_getElem?_getD, List.getElem?_set_self, h]

lemma list_getD_set_ne {α : Type} (l : List α) (i j : Nat) (a d : α)
    (h : i ≠ j) : (l.set i a).getD j d = l.getD j d := by
  simp [List.getD_eq_getElem?_getD, List.getElem?_set_ne h]

/-- When every bitmap bit is set, the scan finds nothing. -/
lemma scanClear_of_full (l : List Bool)
    (h : ∀ j, j < l.length → l.getD j false = true) : scanClear l = none := by
  induction l with
  | nil => rfl
  | cons b bs ih =>
    have hb : b = true := h 0 (Nat.succ_pos _)
    have hbs : scanClear bs = none :=
      ih (fun j hj => by simpa using h (j + 1) (Nat.succ_lt_succ hj))
    unfold scanClear
    rw [hb, if_pos rfl, hbs]
    rfl

/-- The scan returns the lowest clear bit. -/
lemma scanClear_of_first (l : List Bool) (i : Nat)
    (hi : l.getD i false = false)
    (hbelow : ∀ j, j < i → l.getD j false = true)
    (hlt : i < l.length) : scanClear l = some i := by
  induction l generalizing i with
  | nil => cases hlt
  | cons b bs ih =>
    cases i with
    | zero =>
      have hb : b = false := by simpa using hi
      unfold scanClear
      rw [hb, if_neg (by simp)]
    | succ k =>
      have hb : b = true := hbelow 0 (Nat.succ_pos _)
      unfold scanClear
      rw [hb, if_pos rfl, ih k (by simpa using hi)
        (fun j hj => by simpa using hbelow (j + 1) (Nat.succ_lt_succ hj))
        (Nat.lt_of_succ_lt_succ hlt)]
      rfl

/-! ## Claim theorems about the swap manager -/

/-- C8: `PutPageSwap` with an already-associated sector writes the frame
to that sector and returns it; with the sentinel it claims the
lowest-indexed clear bitmap bit, marks it occupied, writes there and
returns that index; with a full bitmap it returns the sentinel without
writing (the state is unchanged). -/
theorem swap_putpage_sector_choice (cfg : Cfg) (st : SwapState) (d pp i : Nat) :
    (PutPageSwap cfg st (some d) pp =
      (some d,
       { st with disk := WriteSector st.disk d (pageContent cfg st.mainMemory pp) })) ∧
    (List.getD st.pageFlags i false = false →
     (∀ j, j < i → List.getD st.pageFlags j false = true) →
     i < List.length st.pageFlags →
     PutPageSwap cfg st none pp =
       (some i,
        { st with pageFlags := List.set st.pageFlags i true,
                  disk := WriteSector st.disk i (pageContent cfg st.mainMemory pp) })) ∧
    ((∀ j, j < List.length st.pageFlags → List.getD st.pageFlags j false = true) →
     PutPageSwap cfg st none pp = (none, st)) := by
  refine ⟨rfl, fun hi hbelow hlt => ?_, fun hfull => ?_⟩
  · unfold PutPageSwap GetFreeSwapSector
    rw [scanClear_of_first st.pageFlags i hi hbelow hlt]
  · unfold PutPageSwap GetFreeSwapSector
    rw [scanClear_of_full st.pageFlags hfull]

/-- Witness for C8: bitmap `[true, false]`: the sentinel call claims
sector 1, marks it, and writes the frame content there. -/
theorem swap_putpage_sector_choice_witness :
    (List.getD [true, false] 1 false = false) ∧
    PutPageSwap ⟨4, 4⟩ ⟨[true, false], [[9, 9, 9, 9], [8, 8, 8, 8]], [1, 2, 3, 4]⟩
      none 0 =
      (some 1, ⟨[true, true], [[9, 9, 9, 9], [1, 2, 3, 4]], [1, 2, 3, 4]⟩) :=
  ⟨by decide,
   (swap_putpage_sector_choice ⟨4, 4⟩
     ⟨[true, false], [[9, 9, 9, 9], [8, 8, 8, 8]], [1, 2, 3, 4]⟩ 0 0 1).2.1
     (by decide) (by decide) (by decide)⟩

/-- Reading back a frame that was just overwritten with a page-sized
block reproduces that block. -/
lemma pageContent_writeFrame (cfg : Cfg) (mm content : List Nat) (pp : Nat)
    (hlen : content.length = cfg.PageSize)
    (hle : pp * cfg.PageSize ≤ mm.length) :
    pageContent cfg (writeFrame cfg mm pp content) pp = content := by
  unfold pageContent writeFrame
  set A := List.take (pp * cfg.PageSize) mm with hA
  have hAlen : A.length = pp * cfg.PageSize := by
    rw [hA, List.length_take]
    omega
  rw [List.append_assoc, ← hAlen, List.drop_left, ← hlen, List.take_left]

lemma length_pageContent (cfg : Cfg) (mm : List Nat) (pp : Nat)
    (h : pp * cfg.PageSize + cfg.PageSize ≤ mm.length) :
    (pageContent cfg mm pp).length = cfg.PageSize := by
  unfold pageContent
  rw [List.length_take, List.length_drop]
  omega

/-- C9: writing a frame's content to a freshly allocated swap sector with
`PutPageSwap`, then reading that sector back with `GetPageSwap` into any
frame, reproduces the original page content byte-for-byte in the
destination frame.  The bounds hypotheses say the sector exists on the
swap disk and both frames lie inside physical memory. -/
theorem swap_roundtrip (cfg : Cfg) (st : SwapState) (pp pp2 s : Nat)
    (st1 : SwapState)
    (hput : PutPageSwap cfg st none pp = (some s, st1))
    (hs : s < List.length st.disk)
    (hpp : pp * cfg.PageSize + cfg.PageSize ≤ List.length st.mainMemory)
    (hpp2 : pp2 * cfg.PageSize ≤ List.length st.mainMemory) :
    pageContent cfg (GetPageSwap cfg st1 s pp2).mainMemory pp2 =
      pageContent cfg st.mainMemory pp := by
  cases hscan : scanClear st.pageFlags with
  | none =>
    have hcomp : PutPageSwap cfg st none pp = (none, st) := by
      unfold PutPageSwap GetFreeSwapSector
      rw [hscan]
    rw [hcomp] at hput
    cases congrArg Prod.fst hput
  | some n =>
    have hcomp : PutPageSwap cfg st none pp =
        (some n,
         { st with pageFlags := List.set st.pageFlags n true,
                   disk := WriteSector st.disk n (pageContent cfg st.mainMemory pp) }) := by
      unfold PutPageSwap GetFreeSwapSector
      rw [hscan]
    rw [hcomp] at hput
    have hn : n = s := Option.some.inj (congrArg Prod.fst hput)
    subst hn
    have hst1 : st1 =
        { st with pageFlags := List.set st.pageFlags n true,
                  disk := WriteSector st.disk n (pageContent cfg st.mainMemory pp) } :=
      (congrArg Prod.snd hput).symm
    unfold GetPageSwap
    have hmm : st1.mainMemory = st.mainMemory := by rw [hst1]
    have hdisk : st1.disk = WriteSector st.disk n (pageContent cfg st.mainMemory pp) := by
      rw [hst1]
    have hread : ReadSector st1.disk n = pageContent cfg st.mainMemory pp := by
      rw [hdisk]
      unfold ReadSector WriteSector
      exact list_getD_set_self st.disk n _ _ hs
    rw [hread, hmm]
    exact pageContent_writeFrame cfg st.mainMemory _ pp2
      (length_pageContent cfg st.mainMemory pp hpp) hpp2

/-- Witness for C9: page size 2, memory of two frames; frame 0's content
`[1, 2]` is swapped out to the fresh sector 0 and read back into frame 1,
which then holds `[1, 2]`. -/
theorem swap_roundtrip_witness :
    PutPageSwap ⟨2, 4⟩ ⟨[false], [[7, 7]], [1, 2, 5, 6]⟩ none 0 =
      (some 0, ⟨[true], [[1, 2]], [1, 2, 5, 6]⟩) ∧
    pageContent ⟨2, 4⟩
      (GetPageSwap ⟨2, 4⟩ ⟨[true], [[1, 2]], [1, 2, 5, 6]⟩ 0 1).mainMemory 1 =
      pageContent ⟨2, 4⟩ [1, 2, 5, 6] 0 :=
  ⟨by decide,
   swap_roundtrip ⟨2, 4⟩ ⟨[false], [[7, 7]], [1, 2, 5, 6]⟩ 0 1 0
     ⟨[true], [[1, 2]], [1, 2, 5, 6]⟩ (by decide) (by decide) (by decide)
     (by decide)⟩

/-! ## Liveness of the clock algorithm -/

/-- Clearing a used bit never changes a frame's lock flag. -/
lemma locked_set_used (frames : List ClockFrame) (i v : Nat) :
    ((List.set frames i { frames.getD i default with used := false }).getD v
      default).locked = ((frames.getD v default)).locked := by
  by_cases h : i = v
  · subst h
    by_cases hlt : i < frames.length
    · rw [list_getD_set_self _ _ _ _ hlt]
    · rw [List.set_eq_of_length_le (Nat.le_of_not_lt hlt)]
  · rw [list_getD_set_ne _ _ _ _ _ h]

/-- Main induction for clock-algorithm liveness: if an unlocked frame `j`
lies ahead of the cursor within the fuel (with a full extra lap of slack
when its used bit is still set), the scan selects some unlocked frame. -/
lemma evictClock_finds (j : Nat) :
    ∀ (fuel : Nat) (frames : List ClockFrame) (cursor c' : Nat),
    j < frames.length →
    (frames.getD j default).locked = false →
    cursor < c' → c' % frames.length = j →
    c' + (if (frames.getD j default).used = true then frames.length else 0) ≤
      cursor + fuel →
    ∃ v frames1, evictClock frames cursor fuel = some (v, frames1) ∧
      v < frames.length ∧ (frames.getD v default).locked = false := by
  intro fuel
  induction fuel with
  | zero =>
    intro frames cursor c' hj hlock hlt hmod hbound
    exfalso
    rcases (frames.getD j default).used with _ | _ <;> simp at hbound <;> omega
  | succ fuel ih =>
    intro frames cursor c' hj hlock hlt hmod hbound
    have npos : 0 < frames.length := Nat.lt_of_le_of_lt (Nat.zero_le j) hj
    have hilt : (cursor + 1) % frames.length < frames.length := Nat.mod_lt _ npos
    have hstep : evictClock frames cursor (fuel + 1) =
        (if (frames.getD ((cursor + 1) % frames.length) default).locked = true then
           evictClock frames (cursor + 1) fuel
         else if (frames.getD ((cursor + 1) % frames.length) default).used = true then
           evictClock
             (List.set frames ((cursor + 1) % frames.length)
               { frames.getD ((cursor + 1) % frames.length) default with used := false })
             (cursor + 1) fuel
         else some ((cursor + 1) % frames.length, frames)) := rfl
    by_cases hlocki : (frames.getD ((cursor + 1) % frames.length) default).locked = true
    · -- locked frame: skipped, nothing changes
      rw [hstep, if_pos hlocki]
      have hij : (cursor + 1) % frames.length ≠ j := by
        intro he
        rw [he, hlock] at hlocki
        cases hlocki
      have hc2 : c' ≠ cursor + 1 := by
        intro he
        rw [he] at hmod
        exact hij hmod
      exact ih frames (cursor + 1) c' hj hlock (by omega) hmod (by omega)
    · rw [hstep, if_neg hlocki]
      by_cases husedi : (frames.getD ((cursor + 1) % frames.length) default).used = true
      · rw [if_pos husedi]
        by_cases hij : (cursor + 1) % frames.length = j
        · -- the target frame itself: its used bit is cleared, go one more lap
          subst hij
          simp only [husedi, if_pos] at hbound
          obtain ⟨v, fr1, hev, hvlt, hvlock⟩ :=
            ih (List.set frames ((cursor + 1) % frames.length)
                 { frames.getD ((cursor + 1) % frames.length) default with used := false })
               (cursor + 1) (cursor + 1 + frames.length)
               (by simpa [List.length_set] using hilt)
               (by rw [list_getD_set_self _ _ _ _ hilt]; simpa using hlock)
               (by omega)
               (by rw [List.length_set, Nat.add_mod_right])
               (by rw [list_getD_set_self _ _ _ _ hilt]; simp; omega)
          exact ⟨v, fr1, hev, by simpa [List.length_set] using hvlt,
            by rw [← locked_set_used frames ((cursor + 1) % frames.length) v]; exact hvlock⟩
        · -- a different used frame gets its second chance; the target is untouched
          have hc2 : c' ≠ cursor + 1 := by
            intro he
            rw [he] at hmod
            exact hij hmod
          have hgetj : ((List.set frames ((cursor + 1) % frames.length)
              { frames.getD ((cursor + 1) % frames.length) default with used := false }).getD
                j default) = frames.getD j default :=
            list_getD_set_ne _ _ _ _ _ hij
          obtain ⟨v, fr1, hev, hvlt, hvlock⟩ :=
            ih (List.set frames ((cursor + 1) % frames.length)
                 { frames.getD ((cursor + 1) % frames.length) default with used := false })
               (cursor + 1) c'
               (by simpa [List.length_set] using hj)
               (by rw [hgetj]; exact hlock)
               (by omega)
               (by rw [List.length_set]; exact hmod)
               (by rw [hgetj, List.length_set]; omega)
          exact ⟨v, fr1, hev, by simpa [List.length_set] using hvlt,
            by rw [← locked_set_used frames ((cursor + 1) % frames.length) v]; exact hvlock⟩
      · -- unlocked frame with clear used bit: selected
        rw [if_neg husedi]
        exact ⟨(cursor + 1) % frames.length, frames, rfl, hilt, by simpa using hlocki⟩

/-- C2: eviction liveness of the clock algorithm (modelled from the spec,
`EvictPage` being an unimplemented stub in the source): when every frame
is occupied and at least one frame is unlocked, the clock scan terminates
within two laps (`2 * frames.length` steps) and returns the index of an
unlocked frame. -/
theorem evict_clock_liveness (frames : List ClockFrame) (cursor : Nat)
    (_hocc : ∀ k, k < frames.length → (frames.getD k default).free = false)
    (hsome : ∃ j, j < frames.length ∧ (frames.getD j default).locked = false) :
    ∃ v frames1,
      evictClock frames cursor (2 * frames.length) = some (v, frames1) ∧
      v < frames.length ∧ (frames.getD v default).locked = false := by
  obtain ⟨j, hj, hlock⟩ := hsome
  have npos : 0 < frames.length := Nat.lt_of_le_of_lt (Nat.zero_le j) hj
  have ha : (cursor + 1) % frames.length < frames.length := Nat.mod_lt _ npos
  -- the first future step index congruent to j
  refine evictClock_finds j (2 * frames.length) frames cursor
    (cursor + 1 + (j + frames.length - (cursor + 1) % frames.length) % frames.length)
    hj hlock (by omega) ?_ ?_
  · rw [Nat.add_mod, Nat.mod_mod_of_dvd _ (dvd_refl _)]
    rcases le_or_lt ((cursor + 1) % frames.length) j with hle | hgt
    · have h1 : j + frames.length - (cursor + 1) % frames.length =
          (j - (cursor + 1) % frames.length) + frames.length := by omega
      rw [h1, Nat.add_mod_right,
        Nat.mod_eq_of_lt (show j - (cursor + 1) % frames.length < frames.length by omega)]
      have h3 : (cursor + 1) % frames.length + (j - (cursor + 1) % frames.length) = j := by
        omega
      rw [h3, Nat.mod_eq_of_lt hj]
    · have h1 : j + frames.length - (cursor + 1) % frames.length < frames.length := by
        omega
      rw [Nat.mod_eq_of_lt h1]
      have h2 : (cursor + 1) % frames.length +
          (j + frames.length - (cursor + 1) % frames.length) = j + frames.length := by
        omega
      rw [h2, Nat.add_mod_right, Nat.mod_eq_of_lt hj]
  · have hmlt : (j + frames.length - (cursor + 1) % frames.length) % frames.length <
        frames.length := Nat.mod_lt _ npos
    rcases (frames.getD j default).used with _ | _ <;> simp <;> omega

/-- Witness for C2: two occupied frames, frame 0 locked, frame 1 unlocked
with its used bit set; the scan clears frame 1's used bit on the first
lap and selects it on the second. -/
theorem evict_clock_liveness_witness :
    (∃ v frames1,
      evictClock [⟨false, true, false⟩, ⟨false, false, true⟩] 0 4 =
        some (v, frames1) ∧
      v < 2 ∧
      (List.getD [(⟨false, true, false⟩ : ClockFrame), ⟨false, false, true⟩] v
        default).locked = false) :=
  evict_clock_liveness [⟨false, true, false⟩, ⟨false, false, true⟩] 0
    (fun k hk => by
      have hk2 : k < 2 := by simpa using hk
      interval_cases k <;> decide)
    ⟨1, by decide, by decide⟩

/-! ## Frame-table invariant: lemmas and claim C4 -/

lemma length_clearBitValid (tt : TranslationTable) (vpn : Nat) :
    List.length (clearBitValid tt vpn) = List.length tt := by
  unfold clearBitValid
  exact List.length_set tt _ _

lemma getEntry_clearBitValid (tt : TranslationTable) (i j : Nat) :
    getEntry (clearBitValid tt i) j =
      if i = j ∧ i < List.length tt then { getEntry tt i with valid := false }
      else getEntry tt j := by
  unfold clearBitValid
  exact getEntry_set tt i j _

lemma getPhysicalPage_clearBitValid (tt : TranslationTable) (i j : Nat) :
    getPhysicalPage (clearBitValid tt i) j = getPhysicalPage tt j := by
  unfold getPhysicalPage
  rw [getEntry_clearBitValid]
  split
  · rename_i h
    rw [h.1]
  · rfl

lemma getBitValid_clearBitValid_self (tt : TranslationTable) (vpn : Nat)
    (h : vpn < List.length tt) : getBitValid (clearBitValid tt vpn) vpn = false := by
  unfold getBitValid
  rw [getEntry_clearBitValid]
  simp [h]

lemma getBitValid_clearBitValid_ne (tt : TranslationTable) (i j : Nat)
    (h : i ≠ j) : getBitValid (clearBitValid tt i) j = getBitValid tt j := by
  unfold getBitValid
  rw [getEntry_clearBitValid]
  rw [if_neg]
  intro hc
  exact h hc.1

/-- C4 counterexample: the frame-disjointness invariant is not preserved
by every physical-memory-manager operation.  A quiescent state satisfying
the invariant (one occupied frame, back-reference `(owner 0, page 0)`
matching the single valid entry) stops satisfying it after
`SetTPREntry 0 5 1 true` rewrites the back-reference to `(owner 1,
page 5)`, which names no valid translation-table entry — `SetTPREntry`
alone does not keep the frame table and the translation tables
consistent (the source comments call this the caller's responsibility). -/
theorem frame_inv_broken_by_settprentry :
    FrameInv ⟨[⟨false, false, 0, 0⟩], [],
              [some [⟨true, true, true, false, false, 0, -1⟩]]⟩ ∧
    ¬ FrameInv (SetTPREntry
        ⟨[⟨false, false, 0, 0⟩], [],
         [some [⟨true, true, true, false, false, 0, -1⟩]]⟩ 0 5 1 true) := by
  constructor
  · decide
  · decide

/-- C4 amended: the frame-disjointness invariant is preserved by
`UnlockPage` and by `FreePhysicalPage`.  (`SetTPREntry` and
`FindFreePage` run only while a fault is being serviced and need not
preserve it in isolation, and `EvictPage` is an unimplemented stub that
halts.) -/
theorem frame_inv_preserved_by_unlock_and_free (s s1 s2 : PMState)
    (p q : Nat) (hinv : FrameInv s) :
    (UnlockPage s p = some s1 → FrameInv s1) ∧
    (FreePhysicalPage s q = some s2 → FrameInv s2) := by
  constructor
  · -- UnlockPage: only a lock flag changes
    intro h
    unfold UnlockPage at h
    split at h
    case isFalse => cases h
    case isTrue hcond =>
      obtain ⟨hp, hlocked, hfree⟩ := hcond
      have hs1 : s1 =
          { s with
            tpr := List.set s.tpr p ({ List.getD s.tpr p default with locked := false }) } :=
        (Option.some.inj h).symm
      have htab1 : s1.tables = s.tables := by rw [hs1]
      have htpr1 : s1.tpr =
          List.set s.tpr p ({ List.getD s.tpr p default with locked := false }) := by
        rw [hs1]
      have hvalid1 : ∀ o v, validAt s1 o v = validAt s o v := by
        intro o v
        unfold validAt
        rw [htab1]
      have hpp1 : ∀ o v, ppAt s1 o v = ppAt s o v := by
        intro o v
        unfold ppAt
        rw [htab1]
      have htl1 : ∀ o, tableLen s1 o = tableLen s o := by
        intro o
        unfold tableLen
        rw [htab1]
      constructor
      · intro o1 ho1 v1 hv1 o2 ho2 v2 hv2 hval1 hval2 hppe
        rw [htab1] at ho1 ho2
        rw [htl1] at hv1 hv2
        rw [hvalid1] at hval1 hval2
        rw [hpp1, hpp1] at hppe
        exact hinv.1 o1 ho1 v1 hv1 o2 ho2 v2 hv2 hval1 hval2 hppe
      · intro f hf hffree
        rw [htpr1] at hffree
        rw [htpr1, List.length_set] at hf
        rw [htpr1]
        by_cases hfp : p = f
        · subst hfp
          rw [list_getD_set_self _ _ _ _ hp] at hffree ⊢
          rw [hvalid1, hpp1]
          exact hinv.2 p hp hffree
        · rw [list_getD_set_ne _ _ _ _ _ hfp] at hffree ⊢
          rw [hvalid1, hpp1]
          exact hinv.2 f hf hffree
  · -- FreePhysicalPage: the freed frame's matching entry is invalidated
    intro h
    have hfree : (List.getD s.tpr q default).free = false := by
      by_contra hc
      rw [Bool.not_eq_false] at hc
      unfold FreePhysicalPage at h
      rw [if_pos hc] at h
      cases h
    have hq : q < s.tpr.length := by
      by_contra hc
      push_neg at hc
      have hd : List.getD s.tpr q default = default := by
        simp [List.getD_eq_getElem?_getD, List.getElem?_eq_none hc]
      rw [hd] at hfree
      cases hfree
    obtain ⟨hvb, hpb⟩ := hinv.2 q hq hfree
    cases hget : List.getD s.tables (List.getD s.tpr q default).owner none with
    | none =>
      exfalso
      unfold validAt at hvb
      rw [hget] at hvb
      cases hvb
    | some ttq =>
      have howner : (List.getD s.tpr q default).owner < s.tables.length := by
        by_contra hc
        push_neg at hc
        have hd : List.getD s.tables (List.getD s.tpr q default).owner none = none := by
          rw [List.getD_eq_getElem?_getD, List.getElem?_eq_none hc]
          rfl
        rw [hd] at hget
        cases hget
      have hvq : getBitValid ttq (List.getD s.tpr q default).virtualPage = true := by
        unfold validAt at hvb
        rw [hget] at hvb
        exact hvb
      have hv0lt : (List.getD s.tpr q default).virtualPage < List.length ttq :=
        lt_length_of_valid ttq _ hvq
      have hppq : ppAt s (List.getD s.tpr q default).owner
          (List.getD s.tpr q default).virtualPage = (q : Int) := hpb
      have hs2 : s2 =
          { tpr := List.set s.tpr q ({ List.getD s.tpr q default with free := true, locked := false }),
            freePageList := q :: s.freePageList,
            tables := List.set s.tables (List.getD s.tpr q default).owner (some (clearBitValid ttq (List.getD s.tpr q default).virtualPage)) } := by
        unfold FreePhysicalPage at h
        rw [if_neg (by rw [hfree]; simp), hget] at h
        exact (Option.some.inj h).symm
      have htab2 : s2.tables = List.set s.tables (List.getD s.tpr q default).owner
          (some (clearBitValid ttq (List.getD s.tpr q default).virtualPage)) := by
        rw [hs2]
      have htpr2 : s2.tpr = List.set s.tpr q
          ({ List.getD s.tpr q default with free := true, locked := false }) := by
        rw [hs2]
      have hvalid_eq : ∀ o v,
          ¬(o = (List.getD s.tpr q default).owner ∧
            v = (List.getD s.tpr q default).virtualPage) →
          validAt s2 o v = validAt s o v := by
        intro o v hno
        unfold validAt
        rw [htab2]
        by_cases ho : (List.getD s.tpr q default).owner = o
        · subst ho
          rw [list_getD_set_self _ _ _ _ howner, hget]
          exact getBitValid_clearBitValid_ne ttq _ v
            (fun he => hno ⟨rfl, he.symm⟩)
        · rw [list_getD_set_ne _ _ _ _ _ ho]
      have hvalid_v0 : validAt s2 (List.getD s.tpr q default).owner
          (List.getD s.tpr q default).virtualPage = false := by
        unfold validAt
        rw [htab2, list_getD_set_self _ _ _ _ howner]
        exact getBitValid_clearBitValid_self ttq _ hv0lt
      have hpp_eq : ∀ o v, ppAt s2 o v = ppAt s o v := by
        intro o v
        unfold ppAt
        rw [htab2]
        by_cases ho : (List.getD s.tpr q default).owner = o
        · subst ho
          rw [list_getD_set_self _ _ _ _ howner, hget]
          exact getPhysicalPage_clearBitValid ttq _ v
        · rw [list_getD_set_ne _ _ _ _ _ ho]
      have htl_eq : ∀ o, tableLen s2 o = tableLen s o := by
        intro o
        unfold tableLen
        rw [htab2]
        by_cases ho : (List.getD s.tpr q default).owner = o
        · subst ho
          rw [list_getD_set_self _ _ _ _ howner, hget]
          unfold getMaxNumPages
          exact length_clearBitValid ttq _
        · rw [list_getD_set_ne _ _ _ _ _ ho]
      constructor
      · intro o1 ho1 v1 hv1 o2 ho2 v2 hv2 hval1 hval2 hppe
        rw [htab2, List.length_set] at ho1 ho2
        rw [htl_eq] at hv1 hv2
        by_cases hc1 : o1 = (List.getD s.tpr q default).owner ∧
            v1 = (List.getD s.tpr q default).virtualPage
        · rw [hc1.1, hc1.2, hvalid_v0] at hval1
          cases hval1
        · rw [hvalid_eq o1 v1 hc1] at hval1
          by_cases hc2 : o2 = (List.getD s.tpr q default).owner ∧
              v2 = (List.getD s.tpr q default).virtualPage
          · rw [hc2.1, hc2.2, hvalid_v0] at hval2
            cases hval2
          · rw [hvalid_eq o2 v2 hc2] at hval2
            rw [hpp_eq, hpp_eq] at hppe
            exact hinv.1 o1 ho1 v1 hv1 o2 ho2 v2 hv2 hval1 hval2 hppe
      · intro f hf hffree
        rw [htpr2, List.length_set] at hf
        rw [htpr2] at hffree
        rw [htpr2]
        by_cases hfq : q = f
        · subst hfq
          rw [list_getD_set_self _ _ _ _ hq] at hffree
          cases hffree
        · rw [list_getD_set_ne _ _ _ _ _ hfq] at hffree ⊢
          obtain ⟨hv, hp⟩ := hinv.2 f hf hffree
          have hne : ¬((List.getD s.tpr f default).owner =
                (List.getD s.tpr q default).owner ∧
              (List.getD s.tpr f default).virtualPage =
                (List.getD s.tpr q default).virtualPage) := by
            rintro ⟨h1, h2⟩
            rw [h1, h2] at hp
            rw [hppq] at hp
            have : q = f := by exact_mod_cast hp
            exact hfq this
          constructor
          · rw [hvalid_eq _ _ hne]
            exact hv
          · rw [hpp_eq]
            exact hp

/-- Witness for the amended C4: a two-frame state satisfying the
invariant; unlocking frame 0 and freeing frame 1 both yield states that
still satisfy it. -/
theorem frame_inv_preserved_witness :
    FrameInv ⟨[⟨false, true, 0, 0⟩, ⟨false, false, 1, 0⟩], [],
              [some [⟨true, true, true, false, false, 0, -1⟩,
                     ⟨true, true, true, false, false, 1, -1⟩]]⟩ ∧
    FrameInv ⟨[⟨false, false, 0, 0⟩, ⟨false, false, 1, 0⟩], [],
              [some [⟨true, true, true, false, false, 0, -1⟩,
                     ⟨true, true, true, false, false, 1, -1⟩]]⟩ ∧
    FrameInv ⟨[⟨false, true, 0, 0⟩, ⟨true, false, 1, 0⟩], [1],
              [some [⟨true, true, true, false, false, 0, -1⟩,
                     ⟨false, true, true, false, false, 1, -1⟩]]⟩ :=
  ⟨by decide,
   (frame_inv_preserved_by_unlock_and_free
     ⟨[⟨false, true, 0, 0⟩, ⟨false, false, 1, 0⟩], [],
      [some [⟨true, true, true, false, false, 0, -1⟩,
             ⟨true, true, true, false, false, 1, -1⟩]]⟩
     ⟨[⟨false, false, 0, 0⟩, ⟨false, false, 1, 0⟩], [],
      [some [⟨true, true, true, false, false, 0, -1⟩,
             ⟨true, true, true, false, false, 1, -1⟩]]⟩
     ⟨[⟨false, true, 0, 0⟩, ⟨true, false, 1, 0⟩], [1],
      [some [⟨true, true, true, false, false, 0, -1⟩,
             ⟨false, true, true, false, false, 1, -1⟩]]⟩
     0 1 (by decide)).1 (by decide),
   (frame_inv_preserved_by_unlock_and_free
     ⟨[⟨false, true, 0, 0⟩, ⟨false, false, 1, 0⟩], [],
      [some [⟨true, true, true, false, false, 0, -1⟩,
             ⟨true, true, true, false, false, 1, -1⟩]]⟩
     ⟨[⟨false, false, 0, 0⟩, ⟨false, false, 1, 0⟩], [],
      [some [⟨true, true, true, false, false, 0, -1⟩,
             ⟨true, true, true, false, false, 1, -1⟩]]⟩
     ⟨[⟨false, true, 0, 0⟩, ⟨true, false, 1, 0⟩], [1],
      [some [⟨true, true, true, false, false, 0, -1⟩,
             ⟨false, true, true, false, false, 1, -1⟩]]⟩
     0 1 (by decide)).2 (by decide)⟩

end Nachos
